import Mathlib

/-!
# saba: MMD model registries and PMD model accessors

A shallow embedding of `Saba/Model/MMD/MMDModel.h` and `Saba/Model/MMD/PMDModel.h`.

* `std::vector<std::unique_ptr<T>>` is a `List T`: the vector owns its elements, and the
  object owned by slot `i` is the `i`-th element of the list.
* A raw pointer obtained from `m_xs[i].get()` is the slot it points into (`Ptr.elem i`);
  `nullptr` and the undefined behaviour of an out-of-range `operator[]` are separate outcomes.
* `size_t` is a natural number below `2 ^ w`, where `w` is the width of `size_t` in bits;
  conversions to `size_t` are written with an explicit wrap-around (`toSizeT`).
* The element types `MMDNode` and `MMDIkSolver` are declared in headers that are not part of
  the embedded sources, and the managers are templates over the element type, so the element
  types are parameters that provide the members the templates use.
-/

namespace saba

/-! ## Machine integers and the standard library -/

/-- Conversion of an integer value to a `w`-bit `size_t`: reduction modulo `2 ^ w`. -/
def toSizeT (w : Nat) (z : Int) : Nat :=
  (z % (2 : Int) ^ w).toNat

/-- The iterator `std::find_if` returns, as its offset from `begin()`: the position of the first
element satisfying `pred`, or the length of the range (the `end()` iterator) when there is
none. -/
def find_if {α : Type} (pred : α → Bool) : List α → Nat
  | [] => 0
  | x :: xs => if pred x then 0 else find_if pred xs + 1

/-- The outcome of an accessor returning a raw pointer to an element owned by a manager. -/
inductive Ptr where
  /-- The accessor returned `nullptr`. -/
  | nullptr : Ptr
  /-- The accessor returned the address of the object owned by slot `idx`. -/
  | elem (idx : Nat) : Ptr
  /-- The accessor indexed its vector out of range: undefined behaviour. -/
  | undefined : Ptr
  deriving DecidableEq, Repr

/-! ## Element types of the manager templates -/

/-- What `MMDNodeManagerT<NodeType>` uses of `NodeType`: the member `m_name` and the default
constructor called by `std::make_unique<NodeType>()`. -/
class MMDNodeType (NodeType : Type) where
  /-- The member `m_name`. -/
  m_name : NodeType → String
  /-- The value built by `std::make_unique<NodeType>()`. -/
  make_unique : NodeType

/-- What `MMDIKManagerT<IKSolverType>` uses of `IKSolverType`: the method `GetName()` and the
default constructor called by `std::make_unique<IKSolverType>()`. -/
class MMDIKSolverType (IKSolverType : Type) where
  /-- The method `GetName()`. -/
  GetName : IKSolverType → String
  /-- The value built by `std::make_unique<IKSolverType>()`. -/
  make_unique : IKSolverType

/-- What `MMDBlendShapeManagerT<BlendShapeType>` uses of `BlendShapeType`: the member `m_name`
and the default constructor called by `std::make_unique<BlendShapeType>()`. -/
class MMDBlendShapeType (BlendShapeType : Type) where
  /-- The member `m_name`. -/
  m_name : BlendShapeType → String
  /-- The value built by `std::make_unique<BlendShapeType>()`. -/
  make_unique : BlendShapeType

/-! ## `MMDNodeManager` and `MMDNodeManagerT` -/

/-- The constant `static const size_t NPos = -1;` of `MMDNodeManager`. -/
def MMDNodeManager.NPos (w : Nat) : Nat :=
  toSizeT w (-1)

/-- The class template `MMDModel::MMDNodeManagerT<NodeType>`: its only member is `m_nodes`. -/
structure MMDNodeManagerT (NodeType : Type) where
  /-- The member `std::vector<NodePtr> m_nodes`. -/
  m_nodes : List NodeType

namespace MMDNodeManagerT

variable {NodeType : Type} [MMDNodeType NodeType]

/-- The method `GetNodeCount() { return m_nodes.size(); }`. -/
def GetNodeCount (self : MMDNodeManagerT NodeType) : Nat :=
  self.m_nodes.length

/-- The method `FindNodeIndex(const std::string& name)`: `std::find_if` over `m_nodes` with the
predicate `node->m_name == name`; `NPos` when the iterator is `m_nodes.end()`, otherwise the
iterator difference `findIt - m_nodes.begin()` converted to `size_t`. -/
def FindNodeIndex (w : Nat) (self : MMDNodeManagerT NodeType) (name : String) : Nat :=
  let findIt := find_if (fun node => MMDNodeType.m_name node == name) self.m_nodes
  if findIt = self.m_nodes.length then
    MMDNodeManager.NPos w
  else
    toSizeT w (Int.ofNat findIt)

/-- The method `GetMMDNode(size_t idx) { return m_nodes[idx].get(); }`. -/
def GetMMDNode (self : MMDNodeManagerT NodeType) (idx : Nat) : Ptr :=
  if idx < self.m_nodes.length then Ptr.elem idx else Ptr.undefined

/-- The method `MMDNodeManager::GetMMDNode(const std::string& nodeName)`. -/
def GetMMDNodeByName (w : Nat) (self : MMDNodeManagerT NodeType) (nodeName : String) : Ptr :=
  let findIdx := self.FindNodeIndex w nodeName
  if findIdx = MMDNodeManager.NPos w then
    Ptr.nullptr
  else
    self.GetMMDNode findIdx

/-- The method `GetNode(size_t i) { return m_nodes[i].get(); }`. -/
def GetNode (self : MMDNodeManagerT NodeType) (i : Nat) : Ptr :=
  if i < self.m_nodes.length then Ptr.elem i else Ptr.undefined

/-- The method `AddNode()`: `m_nodes.emplace_back(std::make_unique<NodeType>())`, then
`return m_nodes[m_nodes.size() - 1].get()`. The result is the manager afterwards together
with the returned pointer. -/
def AddNode (w : Nat) (self : MMDNodeManagerT NodeType) : MMDNodeManagerT NodeType × Ptr :=
  let self1 : MMDNodeManagerT NodeType := { m_nodes := self.m_nodes ++ [MMDNodeType.make_unique] }
  (self1, self1.GetNode (toSizeT w (Int.ofNat self1.m_nodes.length - 1)))

/-- The method `GetNodes() { return &m_nodes; }`, read-only: the vector itself. -/
def GetNodes (self : MMDNodeManagerT NodeType) : List NodeType :=
  self.m_nodes

/-- The object a returned pointer designates, when it designates one. -/
def deref (self : MMDNodeManagerT NodeType) : Ptr → Option NodeType
  | Ptr.elem idx => self.m_nodes[idx]?
  | _ => none

/-- The manager after `k` successive calls of `AddNode()`. -/
def AddNodes (w : Nat) (self : MMDNodeManagerT NodeType) : Nat → MMDNodeManagerT NodeType
  | 0 => self
  | k + 1 => (AddNode w (AddNodes w self k)).1

end MMDNodeManagerT

/-! ## `MMDIKManager` and `MMDIKManagerT` -/

/-- The constant `static const size_t NPos = -1;` of `MMDIKManager`. -/
def MMDIKManager.NPos (w : Nat) : Nat :=
  toSizeT w (-1)

/-- The class template `MMDModel::MMDIKManagerT<IKSolverType>`: its only member is
`m_ikSolvers`. -/
structure MMDIKManagerT (IKSolverType : Type) where
  /-- The member `std::vector<IKSolverPtr> m_ikSolvers`. -/
  m_ikSolvers : List IKSolverType

namespace MMDIKManagerT

variable {IKSolverType : Type} [MMDIKSolverType IKSolverType]

/-- The method `GetIKSolverCount() { return m_ikSolvers.size(); }`. -/
def GetIKSolverCount (self : MMDIKManagerT IKSolverType) : Nat :=
  self.m_ikSolvers.length

/-- The method `FindIKSolverIndex(const std::string& name)`: `std::find_if` over `m_ikSolvers`
with the predicate `ikSolver->GetName() == name`. -/
def FindIKSolverIndex (w : Nat) (self : MMDIKManagerT IKSolverType) (name : String) : Nat :=
  let findIt := find_if (fun ikSolver => MMDIKSolverType.GetName ikSolver == name) self.m_ikSolvers
  if findIt = self.m_ikSolvers.length then
    MMDIKManager.NPos w
  else
    toSizeT w (Int.ofNat findIt)

/-- The method `GetMMDIKSolver(size_t idx) { return m_ikSolvers[idx].get(); }`. -/
def GetMMDIKSolver (self : MMDIKManagerT IKSolverType) (idx : Nat) : Ptr :=
  if idx < self.m_ikSolvers.length then Ptr.elem idx else Ptr.undefined

/-- The method `MMDIKManager::GetMMDIKSolver(const std::string& ikName)`. -/
def GetMMDIKSolverByName (w : Nat) (self : MMDIKManagerT IKSolverType) (ikName : String) : Ptr :=
  let findIdx := self.FindIKSolverIndex w ikName
  if findIdx = MMDIKManager.NPos w then
    Ptr.nullptr
  else
    self.GetMMDIKSolver findIdx

/-- The method `GetIKSolver(size_t i) { return m_ikSolvers[i].get(); }`. -/
def GetIKSolver (self : MMDIKManagerT IKSolverType) (i : Nat) : Ptr :=
  if i < self.m_ikSolvers.length then Ptr.elem i else Ptr.undefined

/-- The method `AddIKSolver()`: `m_ikSolvers.emplace_back(std::make_unique<IKSolverType>())`,
then `return m_ikSolvers[m_ikSolvers.size() - 1].get()`. -/
def AddIKSolver (w : Nat) (self : MMDIKManagerT IKSolverType) : MMDIKManagerT IKSolverType × Ptr :=
  let self1 : MMDIKManagerT IKSolverType :=
    { m_ikSolvers := self.m_ikSolvers ++ [MMDIKSolverType.make_unique] }
  (self1, self1.GetIKSolver (toSizeT w (Int.ofNat self1.m_ikSolvers.length - 1)))

end MMDIKManagerT

/-! ## `MMDBlendShapeManager` and `MMDBlendShapeManagerT` -/

/-- The constant `static const size_t NPos = -1;` of `MMDBlendShapeManager`. -/
def MMDBlendShapeManager.NPos (w : Nat) : Nat :=
  toSizeT w (-1)

/-- The class template `MMDModel::MMDBlendShapeManagerT<BlendShapeType>`: its only member is
`m_keyShapes`. -/
structure MMDBlendShapeManagerT (BlendShapeType : Type) where
  /-- The member `std::vector<BlendShapePtr> m_keyShapes`. -/
  m_keyShapes : List BlendShapeType

namespace MMDBlendShapeManagerT

variable {BlendShapeType : Type} [MMDBlendShapeType BlendShapeType]

/-- The method `GetBlendKeyShapeCount() { return m_keyShapes.size(); }`. -/
def GetBlendKeyShapeCount (self : MMDBlendShapeManagerT BlendShapeType) : Nat :=
  self.m_keyShapes.length

/-- The method `FindBlendKeyShapeIndex(const std::string& name)`: `std::find_if` over
`m_keyShapes` with the predicate `blendShape->m_name == name`. -/
def FindBlendKeyShapeIndex (w : Nat) (self : MMDBlendShapeManagerT BlendShapeType)
    (name : String) : Nat :=
  let findIt := find_if (fun blendShape => MMDBlendShapeType.m_name blendShape == name)
    self.m_keyShapes
  if findIt = self.m_keyShapes.length then
    MMDBlendShapeManager.NPos w
  else
    toSizeT w (Int.ofNat findIt)

/-- The method `GetMMDBlendKeyShape(size_t idx) { return m_keyShapes[idx].get(); }`. -/
def GetMMDBlendKeyShape (self : MMDBlendShapeManagerT BlendShapeType) (idx : Nat) : Ptr :=
  if idx < self.m_keyShapes.length then Ptr.elem idx else Ptr.undefined

/-- The method `MMDBlendShapeManager::GetMMDBlendKeyShape(const std::string& name)`. -/
def GetMMDBlendKeyShapeByName (w : Nat) (self : MMDBlendShapeManagerT BlendShapeType)
    (name : String) : Ptr :=
  let findIdx := self.FindBlendKeyShapeIndex w name
  if findIdx = MMDBlendShapeManager.NPos w then
    Ptr.nullptr
  else
    self.GetMMDBlendKeyShape findIdx

/-- The method `GetBlendKeyShape(size_t i) { return m_keyShapes[i].get(); }`. -/
def GetBlendKeyShape (self : MMDBlendShapeManagerT BlendShapeType) (i : Nat) : Ptr :=
  if i < self.m_keyShapes.length then Ptr.elem i else Ptr.undefined

/-- The method `AddBlendKeyShape()`:
`m_keyShapes.emplace_back(std::make_unique<BlendShapeType>())`, then
`return m_keyShapes[m_keyShapes.size() - 1].get()`. -/
def AddBlendKeyShape (w : Nat) (self : MMDBlendShapeManagerT BlendShapeType) :
    MMDBlendShapeManagerT BlendShapeType × Ptr :=
  let self1 : MMDBlendShapeManagerT BlendShapeType :=
    { m_keyShapes := self.m_keyShapes ++ [MMDBlendShapeType.make_unique] }
  (self1, self1.GetBlendKeyShape (toSizeT w (Int.ofNat self1.m_keyShapes.length - 1)))

end MMDBlendShapeManagerT

/-! ## Mesh data -/

/-- The operations of the type `float` that the model uses. The type is a parameter: no
property of floating-point arithmetic is assumed. -/
class FloatOps (F : Type) where
  /-- The value `0.0f`. -/
  zero : F
  /-- The sum `a + b`. -/
  add : F → F → F
  /-- The product `a * b`. -/
  mul : F → F → F
  /-- The comparison `a == 0.0f`. -/
  isZero : F → Bool

/-- The type `glm::vec2`. -/
structure vec2 (F : Type) where
  /-- First component. -/
  x : F
  /-- Second component. -/
  y : F
  deriving DecidableEq, Repr

/-- The type `glm::vec3`. -/
structure vec3 (F : Type) where
  /-- First component. -/
  x : F
  /-- Second component. -/
  y : F
  /-- Third component. -/
  z : F
  deriving DecidableEq, Repr

/-- The type `glm::ivec2`. -/
structure ivec2 where
  /-- First component. -/
  x : Int
  /-- Second component. -/
  y : Int
  deriving DecidableEq, Repr

/-- The product `v * s` of a `glm::vec3` and a `float`. -/
def vec3.scale {F : Type} [FloatOps F] (v : vec3 F) (s : F) : vec3 F :=
  { x := FloatOps.mul v.x s, y := FloatOps.mul v.y s, z := FloatOps.mul v.z s }

/-- The sum `a + b` of two `glm::vec3`. -/
def vec3.add {F : Type} [FloatOps F] (a b : vec3 F) : vec3 F :=
  { x := FloatOps.add a.x b.x, y := FloatOps.add a.y b.y, z := FloatOps.add a.z b.z }

/-- The struct `MMDBlendShapeVertex`. -/
structure MMDBlendShapeVertex (F : Type) where
  /-- The member `uint32_t m_index`. -/
  m_index : Nat
  /-- The member `glm::vec3 m_position`. -/
  m_position : vec3 F
  deriving DecidableEq, Repr

/-- The struct `MMDBlendShape`. -/
structure MMDBlendShape (F : Type) where
  /-- The member `std::string m_name`. -/
  m_name : String
  /-- The member `float m_weight`. -/
  m_weight : F
  /-- The member `std::vector<MMDBlendShapeVertex> m_vertices`. -/
  m_vertices : List (MMDBlendShapeVertex F)
  deriving DecidableEq, Repr

/-- The instantiation `MMDBlendShapeManagerT<MMDBlendShape>`: `std::make_unique<MMDBlendShape>()`
value-initialises the struct (empty name, zero weight, no vertices). -/
instance {F : Type} [FloatOps F] : MMDBlendShapeType (MMDBlendShape F) where
  m_name := MMDBlendShape.m_name
  make_unique := { m_name := "", m_weight := FloatOps.zero, m_vertices := [] }

/-- The struct `MMDSubMesh`. -/
structure MMDSubMesh where
  /-- The member `int m_beginIndex`. -/
  m_beginIndex : Int
  /-- The member `int m_vertexCount`. -/
  m_vertexCount : Int
  /-- The member `int m_materialID`. -/
  m_materialID : Int
  deriving DecidableEq, Repr

/-! ## `PMDModel` -/

/-- The class `PMDModel`: its data members. `F` is `float`; `Material`, `Node` and `IKSolver`
are `MMDMaterial`, `MMDNode` and `MMDIkSolver`, declared in headers outside the embedded
sources. -/
structure PMDModel (F Material Node IKSolver : Type) where
  /-- The member `std::vector<glm::vec3> m_positions`. -/
  m_positions : List (vec3 F)
  /-- The member `std::vector<glm::vec3> m_normals`. -/
  m_normals : List (vec3 F)
  /-- The member `std::vector<glm::vec2> m_uvs`. -/
  m_uvs : List (vec2 F)
  /-- The member `std::vector<glm::ivec2> m_bones`. -/
  m_bones : List ivec2
  /-- The member `std::vector<glm::vec2> m_boneWeights`. -/
  m_boneWeights : List (vec2 F)
  /-- The member `std::vector<glm::vec3> m_updatePositions`. -/
  m_updatePositions : List (vec3 F)
  /-- The member `std::vector<glm::vec3> m_updateNormals`. -/
  m_updateNormals : List (vec3 F)
  /-- The member `std::vector<uint16_t> m_indices`. -/
  m_indices : List Nat
  /-- The member `MMDBlendShape m_baseShape`. -/
  m_baseShape : MMDBlendShape F
  /-- The member `glm::vec3 m_bboxMin`. -/
  m_bboxMin : vec3 F
  /-- The member `glm::vec3 m_bboxMax`. -/
  m_bboxMax : vec3 F
  /-- The member `std::vector<MMDMaterial> m_materials`. -/
  m_materials : List Material
  /-- The member `std::vector<MMDSubMesh> m_subMeshes`. -/
  m_subMeshes : List MMDSubMesh
  /-- The member `MMDNodeManagerT<MMDNode> m_nodeMan`. -/
  m_nodeMan : MMDNodeManagerT Node
  /-- The member `MMDIKManagerT<MMDIkSolver> m_ikSolverMan`. -/
  m_ikSolverMan : MMDIKManagerT IKSolver
  /-- The member `MMDBlendShapeManagerT<MMDBlendShape> m_blendShapeMan`. -/
  m_blendShapeMan : MMDBlendShapeManagerT (MMDBlendShape F)

/-- The data members of `PMDModel` that an accessor can point into. -/
inductive PMDBuffer where
  | m_positions
  | m_normals
  | m_uvs
  | m_updatePositions
  | m_updateNormals
  | m_indices
  | m_materials
  | m_subMeshes
  deriving DecidableEq, Repr

/-- The outcome of an accessor returning `&m_buf[0]`. -/
inductive BufPtr where
  /-- The address of element `idx` of the member `buffer`. -/
  | elem (buffer : PMDBuffer) (idx : Nat) : BufPtr
  /-- The accessor indexed an empty vector: undefined behaviour. -/
  | undefined : BufPtr
  deriving DecidableEq, Repr

/-- The sizes `sizeof(uint16_t)`, in bytes. -/
def sizeof_uint16_t : Nat := 2

namespace PMDModel

variable {F Material Node IKSolver : Type}

/-- The method `GetVertexCount() const { return m_positions.size(); }`. -/
def GetVertexCount (self : PMDModel F Material Node IKSolver) : Nat :=
  self.m_positions.length

/-- The method `GetPositions() const { return &m_positions[0]; }`. -/
def GetPositions (self : PMDModel F Material Node IKSolver) : BufPtr :=
  if 0 < self.m_positions.length then BufPtr.elem PMDBuffer.m_positions 0 else BufPtr.undefined

/-- The method `GetNormals() const { return &m_normals[0]; }`. -/
def GetNormals (self : PMDModel F Material Node IKSolver) : BufPtr :=
  if 0 < self.m_normals.length then BufPtr.elem PMDBuffer.m_normals 0 else BufPtr.undefined

/-- The method `GetUVs() const { return &m_uvs[0]; }`. -/
def GetUVs (self : PMDModel F Material Node IKSolver) : BufPtr :=
  if 0 < self.m_uvs.length then BufPtr.elem PMDBuffer.m_uvs 0 else BufPtr.undefined

/-- The method `GetUpdatePositions() const { return &m_updatePositions[0]; }`. -/
def GetUpdatePositions (self : PMDModel F Material Node IKSolver) : BufPtr :=
  if 0 < self.m_updatePositions.length then
    BufPtr.elem PMDBuffer.m_updatePositions 0
  else
    BufPtr.undefined

/-- The method `GetUpdateNormals() const { return &m_updateNormals[0]; }`. -/
def GetUpdateNormals (self : PMDModel F Material Node IKSolver) : BufPtr :=
  if 0 < self.m_updateNormals.length then
    BufPtr.elem PMDBuffer.m_updateNormals 0
  else
    BufPtr.undefined

/-- The method `GetUpdateUVs() const { return &m_uvs[0]; }`. -/
def GetUpdateUVs (self : PMDModel F Material Node IKSolver) : BufPtr :=
  if 0 < self.m_uvs.length then BufPtr.elem PMDBuffer.m_uvs 0 else BufPtr.undefined

/-- The method `GetIndexElementSize() const { return sizeof(uint16_t); }`. -/
def GetIndexElementSize (_self : PMDModel F Material Node IKSolver) : Nat :=
  sizeof_uint16_t

/-- The method `GetIndexCount() const { return m_indices.size(); }`. -/
def GetIndexCount (self : PMDModel F Material Node IKSolver) : Nat :=
  self.m_indices.length

/-- The method `GetIndices() const { return &m_indices[0]; }`. -/
def GetIndices (self : PMDModel F Material Node IKSolver) : BufPtr :=
  if 0 < self.m_indices.length then BufPtr.elem PMDBuffer.m_indices 0 else BufPtr.undefined

/-- The `glm::vec2` read at offset `i` through a `const glm::vec2*` an accessor returned:
element `idx + i` of the vector it points into. Only `m_uvs` is exposed with this type. -/
def readVec2 (self : PMDModel F Material Node IKSolver) (p : BufPtr) (i : Nat) :
    Option (vec2 F) :=
  match p with
  | BufPtr.elem PMDBuffer.m_uvs idx => self.m_uvs[idx + i]?
  | _ => none

end PMDModel

/-! ## The blend-shape phase of `Update` -/

/-- Modelled from the spec: the accumulation of one `(vertex_index, delta)` pair, part of
`PMDModel::Update`, whose body is not among the embedded sources. The spec (4.2) says:
"accumulate `delta * weight` into a working copy of the rest-pose position buffer, keyed by
vertex_index". A vertex index outside the buffer leaves the buffer as it is. -/
def accumulateDelta {F : Type} [FloatOps F] (weight : F) :
    List (vec3 F) → Nat → vec3 F → List (vec3 F)
  | [], _, _ => []
  | p :: ps, 0, delta => vec3.add p (vec3.scale delta weight) :: ps
  | p :: ps, k + 1, delta => p :: accumulateDelta weight ps k delta

/-- Modelled from the spec: the application of one registered shape, part of
`PMDModel::Update`, whose body is not among the embedded sources. The spec (4.2) says: "for
each `(vertex_index, delta)` in the shape, accumulate `delta * weight`". -/
def applyBlendShape {F : Type} [FloatOps F] (buffer : List (vec3 F)) (shape : MMDBlendShape F) :
    List (vec3 F) :=
  shape.m_vertices.foldl
    (fun buf v => accumulateDelta shape.m_weight buf v.m_index v.m_position) buffer

/-- Modelled from the spec: the compositing of a list of shapes in the order given, part of
`PMDModel::Update`, whose body is not among the embedded sources. The spec (4.2) says: "for
each registered shape with non-zero weight, for each `(vertex_index, delta)` in the shape,
accumulate `delta * weight` into a working copy of the rest-pose position buffer". -/
def compositeShapes {F : Type} [FloatOps F] (buffer : List (vec3 F))
    (shapes : List (MMDBlendShape F)) : List (vec3 F) :=
  shapes.foldl
    (fun buf shape => if FloatOps.isZero shape.m_weight then buf else applyBlendShape buf shape)
    buffer

/-- Modelled from the spec: the blend-shape phase of `PMDModel::Update`, whose body is not among
the embedded sources. The spec (4.2, phase (1) of 2) says that the registered shapes are
composited onto a working copy of the rest-pose position buffer; the base shape is "a
pseudo-shape with fixed weight 1 representing no deformation" that "is always applied first":
the working copy starts as the rest-pose positions `m_positions`, and the shapes registered in
`m_blendShapeMan` follow in registration order. -/
def PMDModel.UpdateBlendShapes {F Material Node IKSolver : Type} [FloatOps F]
    (self : PMDModel F Material Node IKSolver) : List (vec3 F) :=
  compositeShapes self.m_positions self.m_blendShapeMan.m_keyShapes

/-! ## A concrete element type, used to evaluate the definitions -/

/-- A node type with the members the manager templates use and nothing else. -/
structure NamedItem where
  /-- The name. -/
  m_name : String
  deriving DecidableEq, Repr

instance : MMDNodeType NamedItem where
  m_name := NamedItem.m_name
  make_unique := { m_name := "" }

instance : MMDIKSolverType NamedItem where
  GetName := NamedItem.m_name
  make_unique := { m_name := "" }

/-- Exact integer arithmetic as an instance of the operations used on `float`, to evaluate the
definitions on concrete inputs. -/
instance : FloatOps Int where
  zero := 0
  add := fun a b => a + b
  mul := fun a b => a * b
  isZero := fun a => a == 0


/-- A small model over exact integer arithmetic: two vertices and two registered blend shapes,
both with weight zero, that touch vertex 0, vertex 1 and an index outside the buffer. -/
def restingModel : PMDModel Int Unit NamedItem NamedItem where
  m_positions := [{ x := 1, y := 2, z := 3 }, { x := 4, y := 5, z := 6 }]
  m_normals := [{ x := 0, y := 1, z := 0 }, { x := 0, y := 1, z := 0 }]
  m_uvs := [{ x := 0, y := 0 }, { x := 1, y := 1 }]
  m_bones := [{ x := 0, y := 0 }, { x := 0, y := 0 }]
  m_boneWeights := [{ x := 1, y := 0 }, { x := 1, y := 0 }]
  m_updatePositions := [{ x := 1, y := 2, z := 3 }, { x := 4, y := 5, z := 6 }]
  m_updateNormals := [{ x := 0, y := 1, z := 0 }, { x := 0, y := 1, z := 0 }]
  m_indices := [0, 1, 0]
  m_baseShape := { m_name := "base", m_weight := 1, m_vertices := [] }
  m_bboxMin := { x := 1, y := 2, z := 3 }
  m_bboxMax := { x := 4, y := 5, z := 6 }
  m_materials := [()]
  m_subMeshes := [{ m_beginIndex := 0, m_vertexCount := 3, m_materialID := 0 }]
  m_nodeMan := { m_nodes := [{ m_name := "root" }] }
  m_ikSolverMan := { m_ikSolvers := [] }
  m_blendShapeMan :=
    { m_keyShapes :=
        [{ m_name := "smile", m_weight := 0,
            m_vertices := [{ m_index := 0, m_position := { x := 1, y := 1, z := 1 } },
              { m_index := 7, m_position := { x := 1, y := 0, z := 0 } }] },
          { m_name := "blink", m_weight := 0,
            m_vertices := [{ m_index := 0, m_position := { x := 2, y := 0, z := 0 } },
              { m_index := 1, m_position := { x := 0, y := 3, z := 0 } }] }] }

/-! ## Writes through a returned pointer, and further concrete models -/

/-- The manager after the caller has written through a pointer a method returned (for example
`node->m_name = s`): the object owned by the slot the pointer designates becomes `value`, the
object after the writes. A pointer that designates no object leaves the manager as it is. -/
def MMDNodeManagerT.writeNode {NodeType : Type} (self : MMDNodeManagerT NodeType) (p : Ptr)
    (value : NodeType) : MMDNodeManagerT NodeType :=
  match p with
  | Ptr.elem idx => { m_nodes := self.m_nodes.set idx value }
  | _ => self

/-- The size in bytes of one element of the member `m_indices`, declared
`std::vector<uint16_t>`. -/
def PMDModel.sizeof_m_indices_element : Nat := sizeof_uint16_t

/-- A model over exact integer arithmetic with 65537 vertices, one more than 16-bit indices can
address, and one triangle. -/
def denseModel : PMDModel Int Unit NamedItem NamedItem where
  m_positions := List.replicate 65537 { x := 0, y := 0, z := 0 }
  m_normals := List.replicate 65537 { x := 0, y := 1, z := 0 }
  m_uvs := List.replicate 65537 { x := 0, y := 0 }
  m_bones := List.replicate 65537 { x := 0, y := 0 }
  m_boneWeights := List.replicate 65537 { x := 1, y := 0 }
  m_updatePositions := List.replicate 65537 { x := 0, y := 0, z := 0 }
  m_updateNormals := List.replicate 65537 { x := 0, y := 1, z := 0 }
  m_indices := [0, 1, 2]
  m_baseShape := { m_name := "base", m_weight := 1, m_vertices := [] }
  m_bboxMin := { x := 0, y := 0, z := 0 }
  m_bboxMax := { x := 0, y := 0, z := 0 }
  m_materials := [()]
  m_subMeshes := [{ m_beginIndex := 0, m_vertexCount := 3, m_materialID := 0 }]
  m_nodeMan := { m_nodes := [{ m_name := "root" }] }
  m_ikSolverMan := { m_ikSolvers := [] }
  m_blendShapeMan := { m_keyShapes := [] }

/-! ## Theorems -/

/-! ### `toSizeT` and `find_if` -/

theorem two_pow_cast (w : Nat) : ((2 : Int) ^ w) = ((2 ^ w : Nat) : Int) := by
  push_cast
  rfl

theorem toSizeT_ofNat (w n : Nat) : toSizeT w (Int.ofNat n) = n % 2 ^ w := by
  unfold toSizeT
  rw [two_pow_cast]
  have h : (Int.ofNat n) % ((2 ^ w : Nat) : Int) = ((n % 2 ^ w : Nat) : Int) := by
    rw [Int.natCast_mod]
    rfl
  rw [h]
  exact Int.toNat_natCast _

theorem toSizeT_of_lt (w n : Nat) (h : n < 2 ^ w) : toSizeT w (Int.ofNat n) = n := by
  rw [toSizeT_ofNat, Nat.mod_eq_of_lt h]

theorem toSizeT_neg_one (w : Nat) : toSizeT w (-1) = 2 ^ w - 1 := by
  unfold toSizeT
  rw [two_pow_cast]
  have hpos : 0 < 2 ^ w := Nat.pos_of_ne_zero (by positivity)
  have h : (-1 : Int) % ((2 ^ w : Nat) : Int) = ((2 ^ w - 1 : Nat) : Int) := by
    rw [← Int.add_emod_self]
    rw [Int.emod_eq_of_lt] <;> omega
  rw [h]
  exact Int.toNat_natCast _

theorem find_if_le_length {α : Type} (pred : α → Bool) (l : List α) :
    find_if pred l ≤ l.length := by
  induction l with
  | nil => simp [find_if]
  | cons x xs ih =>
    simp only [find_if, List.length_cons]
    split <;> omega

theorem find_if_eq_length_iff {α : Type} (pred : α → Bool) (l : List α) :
    find_if pred l = l.length ↔ ∀ x ∈ l, pred x = false := by
  induction l with
  | nil => simp [find_if]
  | cons x xs ih =>
    cases hx : pred x with
    | true => simp [find_if, hx]
    | false => simp [find_if, hx, ih]

theorem find_if_spec {α : Type} (pred : α → Bool) (l : List α) (h : find_if pred l < l.length) :
    (∃ x, l[find_if pred l]? = some x ∧ pred x = true) ∧
      ∀ j, j < find_if pred l → ∀ y, l[j]? = some y → pred y = false := by
  induction l with
  | nil => simp [find_if] at h
  | cons x xs ih =>
    cases hx : pred x with
    | true => simp [find_if, hx]
    | false =>
      have h1 : find_if pred xs < xs.length := by
        simpa [find_if, hx] using h
      have e : find_if pred (x :: xs) = find_if pred xs + 1 := by
        simp [find_if, hx]
      obtain ⟨⟨z, hz, hpz⟩, hmin⟩ := ih h1
      rw [e]
      refine ⟨⟨z, by simpa using hz, hpz⟩, ?_⟩
      intro j hj y hy
      cases j with
      | zero =>
        simp at hy
        subst hy
        exact hx
      | succ j =>
        simp at hy
        exact hmin j (by omega) y hy

theorem toSizeT_ofNat_le (w n : Nat) : toSizeT w (Int.ofNat n) ≤ n := by
  rw [toSizeT_ofNat]
  exact Nat.mod_le _ _

theorem found_index_facts (w n k : Nat) (hk : k < n) (hn : n < 2 ^ w) :
    toSizeT w (Int.ofNat k) = k ∧ k ≠ toSizeT w (-1) := by
  refine ⟨toSizeT_of_lt w k (by omega), ?_⟩
  rw [toSizeT_neg_one]
  omega

theorem find_if_lt_of_ne {α : Type} (pred : α → Bool) (l : List α)
    (h : find_if pred l ≠ l.length) : find_if pred l < l.length :=
  Nat.lt_of_le_of_ne (find_if_le_length pred l) h

/-! ### The node registry -/

theorem FindNodeIndex_of_absent {NodeType : Type} [MMDNodeType NodeType] (w : Nat)
    (mgr : MMDNodeManagerT NodeType) (s : String)
    (h : find_if (fun node => MMDNodeType.m_name node == s) mgr.m_nodes = mgr.m_nodes.length) :
    mgr.FindNodeIndex w s = MMDNodeManager.NPos w := by
  simp [MMDNodeManagerT.FindNodeIndex, h]

theorem FindNodeIndex_of_present {NodeType : Type} [MMDNodeType NodeType] (w : Nat)
    (mgr : MMDNodeManagerT NodeType) (s : String) (hsize : mgr.m_nodes.length < 2 ^ w)
    (h : find_if (fun node => MMDNodeType.m_name node == s) mgr.m_nodes ≠ mgr.m_nodes.length) :
    mgr.FindNodeIndex w s = find_if (fun node => MMDNodeType.m_name node == s) mgr.m_nodes ∧
      mgr.FindNodeIndex w s ≠ MMDNodeManager.NPos w := by
  have hlt := find_if_lt_of_ne _ _ h
  obtain ⟨h1, h2⟩ := found_index_facts w _ _ hlt hsize
  have e : mgr.FindNodeIndex w s
      = find_if (fun node => MMDNodeType.m_name node == s) mgr.m_nodes := by
    simp only [MMDNodeManagerT.FindNodeIndex, h, if_false]
    exact h1
  refine ⟨e, ?_⟩
  rw [e]
  exact h2

/-- C1: in a node registry whose size fits in `size_t`, `FindNodeIndex(s)` returns the not-found
sentinel `NPos` if and only if no node of the registry has `m_name` equal to `s`. -/
theorem FindNodeIndex_eq_NPos_iff {NodeType : Type} [MMDNodeType NodeType] (w : Nat)
    (mgr : MMDNodeManagerT NodeType) (s : String) (hsize : mgr.m_nodes.length < 2 ^ w) :
    mgr.FindNodeIndex w s = MMDNodeManager.NPos w ↔
      ∀ node ∈ mgr.m_nodes, MMDNodeType.m_name node ≠ s := by
  by_cases h : find_if (fun node => MMDNodeType.m_name node == s) mgr.m_nodes
      = mgr.m_nodes.length
  · have habs := (find_if_eq_length_iff _ _).mp h
    refine ⟨fun _ node hnode => ?_, fun _ => FindNodeIndex_of_absent w mgr s h⟩
    simpa using habs node hnode
  · have hne := (FindNodeIndex_of_present w mgr s hsize h).2
    refine ⟨fun hN => absurd hN hne, fun hall => absurd ?_ h⟩
    apply (find_if_eq_length_iff _ _).mpr
    intro node hnode
    simpa using hall node hnode

/-- Witness of C1 on a registry of two nodes and 64-bit `size_t`. -/
theorem FindNodeIndex_eq_NPos_iff_witness :
    (({ m_nodes := [{ m_name := "head" }, { m_name := "neck" }] } :
        MMDNodeManagerT NamedItem).m_nodes.length < 2 ^ 64) ∧
      (MMDNodeManagerT.FindNodeIndex 64
          ({ m_nodes := [{ m_name := "head" }, { m_name := "neck" }] } :
            MMDNodeManagerT NamedItem) "arm" = MMDNodeManager.NPos 64 ↔
        ∀ node ∈ ({ m_nodes := [{ m_name := "head" }, { m_name := "neck" }] } :
            MMDNodeManagerT NamedItem).m_nodes, MMDNodeType.m_name node ≠ "arm") :=
  ⟨by decide, FindNodeIndex_eq_NPos_iff 64 _ "arm" (by decide)⟩

/-- C2: in a node registry whose size fits in `size_t`, for a name `s` carried by at least one
node, `FindNodeIndex(s)` is the smallest index of a node named `s`: the node at that index has
the name and no node at a smaller index has it. -/
theorem FindNodeIndex_first_match {NodeType : Type} [MMDNodeType NodeType] (w : Nat)
    (mgr : MMDNodeManagerT NodeType) (s : String) (hsize : mgr.m_nodes.length < 2 ^ w)
    (hpresent : ∃ node ∈ mgr.m_nodes, MMDNodeType.m_name node = s) :
    (∃ node, mgr.m_nodes[mgr.FindNodeIndex w s]? = some node ∧ MMDNodeType.m_name node = s) ∧
      ∀ j, j < mgr.FindNodeIndex w s →
        ∀ node, mgr.m_nodes[j]? = some node → MMDNodeType.m_name node ≠ s := by
  have h : find_if (fun node => MMDNodeType.m_name node == s) mgr.m_nodes
      ≠ mgr.m_nodes.length := by
    intro hEq
    obtain ⟨node, hmem, hname⟩ := hpresent
    have := (find_if_eq_length_iff _ _).mp hEq node hmem
    simp [hname] at this
  rw [(FindNodeIndex_of_present w mgr s hsize h).1]
  obtain ⟨⟨x, hx, hpx⟩, hmin⟩ := find_if_spec _ _ (find_if_lt_of_ne _ _ h)
  refine ⟨⟨x, hx, by simpa using hpx⟩, ?_⟩
  intro j hj node hnode
  simpa using hmin j hj node hnode

/-- Witness of C2 on a registry with a duplicated name and 64-bit `size_t`. -/
theorem FindNodeIndex_first_match_witness :
    (∃ node, ({ m_nodes := [{ m_name := "head" }, { m_name := "arm" }, { m_name := "arm" }] } :
        MMDNodeManagerT NamedItem).m_nodes[MMDNodeManagerT.FindNodeIndex 64
          ({ m_nodes := [{ m_name := "head" }, { m_name := "arm" }, { m_name := "arm" }] } :
            MMDNodeManagerT NamedItem) "arm"]? = some node ∧ MMDNodeType.m_name node = "arm") ∧
      ∀ j, j < MMDNodeManagerT.FindNodeIndex 64
          ({ m_nodes := [{ m_name := "head" }, { m_name := "arm" }, { m_name := "arm" }] } :
            MMDNodeManagerT NamedItem) "arm" →
        ∀ node, ({ m_nodes := [{ m_name := "head" }, { m_name := "arm" }, { m_name := "arm" }] } :
            MMDNodeManagerT NamedItem).m_nodes[j]? = some node →
          MMDNodeType.m_name node ≠ "arm" :=
  FindNodeIndex_first_match 64 _ "arm" (by decide)
    ⟨{ m_name := "arm" }, by decide, rfl⟩

/-- C3: in a node registry whose size fits in `size_t`, the by-name accessor `GetMMDNode(s)`
returns null exactly when `FindNodeIndex(s) = NPos`, which is when no node has the name `s`;
otherwise it returns the pointer to the node stored at index `FindNodeIndex(s)`, and that node
has `m_name = s`; in no case does it index `m_nodes` out of range. -/
theorem GetMMDNodeByName_spec {NodeType : Type} [MMDNodeType NodeType] (w : Nat)
    (mgr : MMDNodeManagerT NodeType) (s : String) (hsize : mgr.m_nodes.length < 2 ^ w) :
    (mgr.GetMMDNodeByName w s = Ptr.nullptr ↔ mgr.FindNodeIndex w s = MMDNodeManager.NPos w) ∧
      (mgr.FindNodeIndex w s = MMDNodeManager.NPos w ↔
        ∀ node ∈ mgr.m_nodes, MMDNodeType.m_name node ≠ s) ∧
      (mgr.FindNodeIndex w s ≠ MMDNodeManager.NPos w →
        mgr.GetMMDNodeByName w s = mgr.GetMMDNode (mgr.FindNodeIndex w s) ∧
        mgr.GetMMDNodeByName w s = Ptr.elem (mgr.FindNodeIndex w s) ∧
        ∃ node, mgr.deref (mgr.GetMMDNodeByName w s) = some node ∧
          mgr.m_nodes[mgr.FindNodeIndex w s]? = some node ∧ MMDNodeType.m_name node = s) ∧
      mgr.GetMMDNodeByName w s ≠ Ptr.undefined := by
  by_cases h : find_if (fun node => MMDNodeType.m_name node == s) mgr.m_nodes
      = mgr.m_nodes.length
  · have hN := FindNodeIndex_of_absent w mgr s h
    have hnull : mgr.GetMMDNodeByName w s = Ptr.nullptr := by
      simp [MMDNodeManagerT.GetMMDNodeByName, hN]
    refine ⟨by simp [hnull, hN], ?_, fun hne => absurd hN hne, by simp [hnull]⟩
    have habs := (find_if_eq_length_iff _ _).mp h
    refine ⟨fun _ node hnode => ?_, fun _ => hN⟩
    simpa using habs node hnode
  · obtain ⟨hidx, hne⟩ := FindNodeIndex_of_present w mgr s hsize h
    have hlt := find_if_lt_of_ne _ _ h
    obtain ⟨⟨x, hx, hpx⟩, -⟩ := find_if_spec _ _ hlt
    have hget : mgr.GetMMDNode (mgr.FindNodeIndex w s) = Ptr.elem (mgr.FindNodeIndex w s) := by
      simp only [MMDNodeManagerT.GetMMDNode]
      rw [if_pos]
      rw [hidx]
      exact hlt
    have hby : mgr.GetMMDNodeByName w s = mgr.GetMMDNode (mgr.FindNodeIndex w s) := by
      simp only [MMDNodeManagerT.GetMMDNodeByName]
      rw [if_neg hne]
    have hname : MMDNodeType.m_name x = s := by simpa using hpx
    refine ⟨?_, ?_, fun _ => ⟨hby, hby.trans hget, x, ?_, ?_, hname⟩, ?_⟩
    · rw [hby, hget]
      simp [hne]
    · refine ⟨fun hN => absurd hN hne, fun hall => absurd ?_ h⟩
      apply (find_if_eq_length_iff _ _).mpr
      intro node hnode
      simpa using hall node hnode
    · rw [hby, hget]
      simp only [MMDNodeManagerT.deref]
      rw [hidx]
      exact hx
    · rw [hidx]
      exact hx
    · rw [hby, hget]
      simp

/-- Witness of C3 on a registry with a duplicated name and 64-bit `size_t`. -/
theorem GetMMDNodeByName_spec_witness :
    MMDNodeManagerT.GetMMDNodeByName 64
        ({ m_nodes := [{ m_name := "head" }, { m_name := "arm" }, { m_name := "arm" }] } :
          MMDNodeManagerT NamedItem) "arm" ≠ Ptr.undefined :=
  (GetMMDNodeByName_spec 64
    ({ m_nodes := [{ m_name := "head" }, { m_name := "arm" }, { m_name := "arm" }] } :
      MMDNodeManagerT NamedItem) "arm" (by decide)).2.2.2

theorem AddNode_m_nodes {NodeType : Type} [MMDNodeType NodeType] (w : Nat)
    (mgr : MMDNodeManagerT NodeType) :
    (mgr.AddNode w).1.m_nodes = mgr.m_nodes ++ [MMDNodeType.make_unique] := rfl

theorem toSizeT_succ_sub_one (w n : Nat) (h : n < 2 ^ w) :
    toSizeT w (Int.ofNat (n + 1) - 1) = n := by
  have e : Int.ofNat (n + 1) - 1 = Int.ofNat n := by
    simp
  rw [e]
  exact toSizeT_of_lt w n h

theorem AddNode_result {NodeType : Type} [MMDNodeType NodeType] (w : Nat)
    (mgr : MMDNodeManagerT NodeType) (hsize : mgr.m_nodes.length < 2 ^ w) :
    (mgr.AddNode w).2 = Ptr.elem mgr.m_nodes.length := by
  simp only [MMDNodeManagerT.AddNode, MMDNodeManagerT.GetNode, List.length_append,
    List.length_singleton]
  rw [toSizeT_succ_sub_one w _ hsize]
  simp

/-- C4: on a node registry with `n` nodes (`n` representable in `size_t`), `AddNode()` appends
exactly one node: afterwards `m_nodes` is the old vector followed by one new node,
`GetNodeCount() = n + 1`, and the pointer `AddNode` returns is the one to the node stored at
index `n`, which is what `GetNode(n)` returns. -/
theorem AddNode_appends_one {NodeType : Type} [MMDNodeType NodeType] (w : Nat)
    (mgr : MMDNodeManagerT NodeType) (hsize : mgr.GetNodeCount < 2 ^ w) :
    (mgr.AddNode w).1.m_nodes = mgr.m_nodes ++ [MMDNodeType.make_unique] ∧
      (mgr.AddNode w).1.GetNodeCount = mgr.GetNodeCount + 1 ∧
      (mgr.AddNode w).2 = (mgr.AddNode w).1.GetNode mgr.GetNodeCount ∧
      (mgr.AddNode w).2 = Ptr.elem mgr.GetNodeCount ∧
      (mgr.AddNode w).1.deref (mgr.AddNode w).2 = some MMDNodeType.make_unique := by
  have hres := AddNode_result w mgr hsize
  have hnodes := AddNode_m_nodes w mgr
  refine ⟨hnodes, ?_, ?_, hres, ?_⟩
  · simp [MMDNodeManagerT.GetNodeCount, hnodes]
  · rw [hres]
    simp [MMDNodeManagerT.GetNode, MMDNodeManagerT.GetNodeCount, hnodes]
  · rw [hres]
    simp [MMDNodeManagerT.deref, hnodes]

/-- Witness of C4 on a registry of two nodes and 64-bit `size_t`. -/
theorem AddNode_appends_one_witness :
    (MMDNodeManagerT.AddNode 64
        ({ m_nodes := [{ m_name := "head" }, { m_name := "neck" }] } :
          MMDNodeManagerT NamedItem)).1.GetNodeCount = 2 + 1 ∧
      (MMDNodeManagerT.AddNode 64
        ({ m_nodes := [{ m_name := "head" }, { m_name := "neck" }] } :
          MMDNodeManagerT NamedItem)).2 = Ptr.elem 2 :=
  ⟨(AddNode_appends_one 64
      ({ m_nodes := [{ m_name := "head" }, { m_name := "neck" }] } :
        MMDNodeManagerT NamedItem) (by decide)).2.1,
    (AddNode_appends_one 64
      ({ m_nodes := [{ m_name := "head" }, { m_name := "neck" }] } :
        MMDNodeManagerT NamedItem) (by decide)).2.2.2.1⟩

theorem AddNodes_m_nodes {NodeType : Type} [MMDNodeType NodeType] (w : Nat)
    (mgr : MMDNodeManagerT NodeType) (k : Nat) :
    (mgr.AddNodes w k).m_nodes = mgr.m_nodes ++ List.replicate k MMDNodeType.make_unique := by
  induction k with
  | zero => simp [MMDNodeManagerT.AddNodes]
  | succ k ih =>
    simp only [MMDNodeManagerT.AddNodes]
    rw [AddNode_m_nodes, ih, List.append_assoc]
    congr 1
    exact (List.replicate_succ' k _).symm

theorem AddNodes_getElem {NodeType : Type} [MMDNodeType NodeType] (w : Nat)
    (mgr : MMDNodeManagerT NodeType) (k i : Nat) (hi : i < mgr.m_nodes.length) :
    (mgr.AddNodes w k).m_nodes[i]? = mgr.m_nodes[i]? := by
  rw [AddNodes_m_nodes]
  exact List.getElem?_append_left hi

theorem AddNodes_GetNode {NodeType : Type} [MMDNodeType NodeType] (w : Nat)
    (mgr : MMDNodeManagerT NodeType) (k i : Nat) (hi : i < mgr.m_nodes.length) :
    (mgr.AddNodes w k).GetNode i = Ptr.elem i ∧ mgr.GetNode i = Ptr.elem i := by
  have hlen : i < (mgr.AddNodes w k).m_nodes.length := by
    rw [AddNodes_m_nodes, List.length_append]
    omega
  simp [MMDNodeManagerT.GetNode, hi, hlen]

/-- C5: index stability. For a node registry and any number `k` of further `AddNode()` calls,
every index `i` below the old node count still designates the same node: `GetNode(i)` returns
the same pointer and the node it points to is unchanged. Consequently, starting from an empty
registry, the node added by call number `m + 1` (with `m` representable in `size_t`) is at
index `m`, and `GetNode(m)` still returns the pointer that call returned, to the same node,
after any number `j` of later additions. -/
theorem AddNode_index_stable {NodeType : Type} [MMDNodeType NodeType] (w : Nat)
    (mgr : MMDNodeManagerT NodeType) (k i : Nat) (hi : i < mgr.GetNodeCount)
    (m j : Nat) (hm : m < 2 ^ w) :
    ((mgr.AddNodes w k).GetNode i = mgr.GetNode i ∧
      (mgr.AddNodes w k).deref ((mgr.AddNodes w k).GetNode i) = mgr.deref (mgr.GetNode i) ∧
      (mgr.AddNodes w k).m_nodes[i]? = mgr.m_nodes[i]?) ∧
    ((MMDNodeManagerT.AddNode w
        (MMDNodeManagerT.AddNodes w ({ m_nodes := [] } : MMDNodeManagerT NodeType) m)).2
        = Ptr.elem m ∧
      (MMDNodeManagerT.AddNodes w (MMDNodeManagerT.AddNode w
        (MMDNodeManagerT.AddNodes w ({ m_nodes := [] } : MMDNodeManagerT NodeType) m)).1
          j).GetNode m
        = (MMDNodeManagerT.AddNode w
            (MMDNodeManagerT.AddNodes w ({ m_nodes := [] } : MMDNodeManagerT NodeType) m)).2 ∧
      (MMDNodeManagerT.AddNodes w (MMDNodeManagerT.AddNode w
        (MMDNodeManagerT.AddNodes w ({ m_nodes := [] } : MMDNodeManagerT NodeType) m)).1
          j).deref
          ((MMDNodeManagerT.AddNodes w (MMDNodeManagerT.AddNode w
            (MMDNodeManagerT.AddNodes w ({ m_nodes := [] } : MMDNodeManagerT NodeType) m)).1
              j).GetNode m)
        = (MMDNodeManagerT.AddNode w
            (MMDNodeManagerT.AddNodes w ({ m_nodes := [] } : MMDNodeManagerT NodeType) m)).1.deref
            (MMDNodeManagerT.AddNode w
              (MMDNodeManagerT.AddNodes w ({ m_nodes := [] } : MMDNodeManagerT NodeType)
                m)).2) := by
  constructor
  · have hi1 : i < mgr.m_nodes.length := hi
    obtain ⟨h1, h2⟩ := AddNodes_GetNode w mgr k i hi1
    refine ⟨h1.trans h2.symm, ?_, AddNodes_getElem w mgr k i hi1⟩
    rw [h1, h2]
    exact AddNodes_getElem w mgr k i hi1
  · generalize hb :
      MMDNodeManagerT.AddNodes w ({ m_nodes := [] } : MMDNodeManagerT NodeType) m = before
    have hlen : before.m_nodes.length = m := by
      rw [← hb, AddNodes_m_nodes]
      simp
    have hres : (before.AddNode w).2 = Ptr.elem m := by
      rw [AddNode_result w before (by omega), hlen]
    have hm1 : m < (before.AddNode w).1.m_nodes.length := by
      rw [AddNode_m_nodes, List.length_append, hlen]
      simp
    obtain ⟨h1, -⟩ := AddNodes_GetNode w (before.AddNode w).1 j m hm1
    refine ⟨hres, h1.trans hres.symm, ?_⟩
    rw [h1, hres]
    exact AddNodes_getElem w (before.AddNode w).1 j m hm1

/-- Witness of C5: index 1 of a two-node registry after three more additions, and the second
node added to an empty registry after two later additions, with 64-bit `size_t`. -/
theorem AddNode_index_stable_witness :
    (MMDNodeManagerT.AddNodes 64
        ({ m_nodes := [{ m_name := "head" }, { m_name := "neck" }] } :
          MMDNodeManagerT NamedItem) 3).m_nodes[1]? = some { m_name := "neck" } ∧
      (MMDNodeManagerT.AddNodes 64 (MMDNodeManagerT.AddNode 64
        (MMDNodeManagerT.AddNodes 64 ({ m_nodes := [] } : MMDNodeManagerT NamedItem) 1)).1
          2).GetNode 1 = Ptr.elem 1 :=
  ⟨(AddNode_index_stable 64
      ({ m_nodes := [{ m_name := "head" }, { m_name := "neck" }] } :
        MMDNodeManagerT NamedItem) 3 1 (by decide) 1 2 (by decide)).1.2.2.trans (by decide),
    ((AddNode_index_stable 64
      ({ m_nodes := [{ m_name := "head" }, { m_name := "neck" }] } :
        MMDNodeManagerT NamedItem) 3 1 (by decide) 1 2 (by decide)).2.2.1).trans
      (AddNode_index_stable 64
        ({ m_nodes := [{ m_name := "head" }, { m_name := "neck" }] } :
          MMDNodeManagerT NamedItem) 3 1 (by decide) 1 2 (by decide)).2.1⟩

/-! ### The three registries -/

theorem find_if_map {α β : Type} (f : α → β) (pred : β → Bool) (l : List α) :
    find_if pred (l.map f) = find_if (fun x => pred (f x)) l := by
  induction l with
  | nil => rfl
  | cons x xs ih => simp [find_if, ih]

theorem FindNodeIndex_eq_names {NodeType : Type} [MMDNodeType NodeType] (w : Nat)
    (mgr : MMDNodeManagerT NodeType) (s : String) :
    mgr.FindNodeIndex w s =
      (if find_if (fun n => n == s) (mgr.m_nodes.map MMDNodeType.m_name)
          = (mgr.m_nodes.map MMDNodeType.m_name).length then toSizeT w (-1)
        else toSizeT w (Int.ofNat
          (find_if (fun n => n == s) (mgr.m_nodes.map MMDNodeType.m_name)))) := by
  rw [find_if_map, List.length_map]
  rfl

theorem FindIKSolverIndex_eq_names {IKSolverType : Type} [MMDIKSolverType IKSolverType]
    (w : Nat) (mgr : MMDIKManagerT IKSolverType) (s : String) :
    mgr.FindIKSolverIndex w s =
      (if find_if (fun n => n == s) (mgr.m_ikSolvers.map MMDIKSolverType.GetName)
          = (mgr.m_ikSolvers.map MMDIKSolverType.GetName).length then toSizeT w (-1)
        else toSizeT w (Int.ofNat
          (find_if (fun n => n == s) (mgr.m_ikSolvers.map MMDIKSolverType.GetName)))) := by
  rw [find_if_map, List.length_map]
  rfl

theorem FindBlendKeyShapeIndex_eq_names {BlendShapeType : Type}
    [MMDBlendShapeType BlendShapeType] (w : Nat) (mgr : MMDBlendShapeManagerT BlendShapeType)
    (s : String) :
    mgr.FindBlendKeyShapeIndex w s =
      (if find_if (fun n => n == s) (mgr.m_keyShapes.map MMDBlendShapeType.m_name)
          = (mgr.m_keyShapes.map MMDBlendShapeType.m_name).length then toSizeT w (-1)
        else toSizeT w (Int.ofNat
          (find_if (fun n => n == s) (mgr.m_keyShapes.map MMDBlendShapeType.m_name)))) := by
  rw [find_if_map, List.length_map]
  rfl

theorem find_if_names_absent (names : List String) (s : String) (h : s ∉ names) :
    find_if (fun n => n == s) names = names.length := by
  apply (find_if_eq_length_iff _ _).mpr
  intro x hx
  have hne : x ≠ s := fun e => h (e ▸ hx)
  simpa using hne

/-- C6: the three registries share one contract. For every list of names and every query name
`s`, on registries whose nodes, IK solvers and blend shapes carry those names in the same order
(`m_name`, `GetName()` and `m_name`), `FindIKSolverIndex(s)` and `FindBlendKeyShapeIndex(s)`
return what `FindNodeIndex(s)` returns, which is `NPos` in all three when `s` is absent; the
three counts equal the length of the list; and the three by-name accessors return the same
pointer outcome, so they return null in exactly the same cases. -/
theorem registries_share_contract {NodeType IKSolverType BlendShapeType : Type}
    [MMDNodeType NodeType] [MMDIKSolverType IKSolverType] [MMDBlendShapeType BlendShapeType]
    (w : Nat) (names : List String) (s : String)
    (nm : MMDNodeManagerT NodeType) (im : MMDIKManagerT IKSolverType)
    (bm : MMDBlendShapeManagerT BlendShapeType)
    (hn : nm.m_nodes.map MMDNodeType.m_name = names)
    (hi : im.m_ikSolvers.map MMDIKSolverType.GetName = names)
    (hb : bm.m_keyShapes.map MMDBlendShapeType.m_name = names) :
    (im.FindIKSolverIndex w s = nm.FindNodeIndex w s ∧
      bm.FindBlendKeyShapeIndex w s = nm.FindNodeIndex w s) ∧
    (s ∉ names →
      nm.FindNodeIndex w s = MMDNodeManager.NPos w ∧
      im.FindIKSolverIndex w s = MMDIKManager.NPos w ∧
      bm.FindBlendKeyShapeIndex w s = MMDBlendShapeManager.NPos w) ∧
    (nm.GetNodeCount = names.length ∧ im.GetIKSolverCount = names.length ∧
      bm.GetBlendKeyShapeCount = names.length) ∧
    (im.GetMMDIKSolverByName w s = nm.GetMMDNodeByName w s ∧
      bm.GetMMDBlendKeyShapeByName w s = nm.GetMMDNodeByName w s) ∧
    ((nm.GetMMDNodeByName w s = Ptr.nullptr ↔ im.GetMMDIKSolverByName w s = Ptr.nullptr) ∧
      (nm.GetMMDNodeByName w s = Ptr.nullptr ↔
        bm.GetMMDBlendKeyShapeByName w s = Ptr.nullptr)) := by
  have e1 : im.FindIKSolverIndex w s = nm.FindNodeIndex w s := by
    rw [FindIKSolverIndex_eq_names, FindNodeIndex_eq_names, hn, hi]
  have e2 : bm.FindBlendKeyShapeIndex w s = nm.FindNodeIndex w s := by
    rw [FindBlendKeyShapeIndex_eq_names, FindNodeIndex_eq_names, hn, hb]
  have c1 : nm.m_nodes.length = names.length := by rw [← hn, List.length_map]
  have c2 : im.m_ikSolvers.length = names.length := by rw [← hi, List.length_map]
  have c3 : bm.m_keyShapes.length = names.length := by rw [← hb, List.length_map]
  have p1 : im.GetMMDIKSolverByName w s = nm.GetMMDNodeByName w s := by
    simp only [MMDIKManagerT.GetMMDIKSolverByName, MMDNodeManagerT.GetMMDNodeByName,
      MMDIKManagerT.GetMMDIKSolver, MMDNodeManagerT.GetMMDNode, e1, c1, c2]
    rfl
  have p2 : bm.GetMMDBlendKeyShapeByName w s = nm.GetMMDNodeByName w s := by
    simp only [MMDBlendShapeManagerT.GetMMDBlendKeyShapeByName,
      MMDNodeManagerT.GetMMDNodeByName, MMDBlendShapeManagerT.GetMMDBlendKeyShape,
      MMDNodeManagerT.GetMMDNode, e2, c1, c3]
    rfl
  refine ⟨⟨e1, e2⟩, ?_, ⟨c1, c2, c3⟩, ⟨p1, p2⟩, ⟨by rw [p1], by rw [p2]⟩⟩
  intro habs
  have hN : nm.FindNodeIndex w s = MMDNodeManager.NPos w := by
    rw [FindNodeIndex_eq_names, hn, if_pos (find_if_names_absent names s habs)]
    rfl
  exact ⟨hN, e1.trans hN, e2.trans hN⟩

/-- Witness of C6 on registries holding the names `head`, `arm`, `arm`, with 64-bit `size_t`:
all three finds return index 1 for `arm`. -/
theorem registries_share_contract_witness :
    MMDIKManagerT.FindIKSolverIndex 64
        ({ m_ikSolvers := [{ m_name := "head" }, { m_name := "arm" }, { m_name := "arm" }] } :
          MMDIKManagerT NamedItem) "arm" = 1 ∧
      MMDBlendShapeManagerT.FindBlendKeyShapeIndex 64
        ({ m_keyShapes := [{ m_name := "head", m_weight := 0, m_vertices := [] },
            { m_name := "arm", m_weight := 1, m_vertices := [] },
            { m_name := "arm", m_weight := 2, m_vertices := [] }] } :
          MMDBlendShapeManagerT (MMDBlendShape Int)) "arm" = 1 :=
  ⟨((registries_share_contract 64 ["head", "arm", "arm"] "arm"
      ({ m_nodes := [{ m_name := "head" }, { m_name := "arm" }, { m_name := "arm" }] } :
        MMDNodeManagerT NamedItem)
      ({ m_ikSolvers := [{ m_name := "head" }, { m_name := "arm" }, { m_name := "arm" }] } :
        MMDIKManagerT NamedItem)
      ({ m_keyShapes := [{ m_name := "head", m_weight := 0, m_vertices := [] },
          { m_name := "arm", m_weight := 1, m_vertices := [] },
          { m_name := "arm", m_weight := 2, m_vertices := [] }] } :
        MMDBlendShapeManagerT (MMDBlendShape Int))
      rfl rfl rfl).1.1).trans (by decide),
    ((registries_share_contract 64 ["head", "arm", "arm"] "arm"
      ({ m_nodes := [{ m_name := "head" }, { m_name := "arm" }, { m_name := "arm" }] } :
        MMDNodeManagerT NamedItem)
      ({ m_ikSolvers := [{ m_name := "head" }, { m_name := "arm" }, { m_name := "arm" }] } :
        MMDIKManagerT NamedItem)
      ({ m_keyShapes := [{ m_name := "head", m_weight := 0, m_vertices := [] },
          { m_name := "arm", m_weight := 1, m_vertices := [] },
          { m_name := "arm", m_weight := 2, m_vertices := [] }] } :
        MMDBlendShapeManagerT (MMDBlendShape Int))
      rfl rfl rfl).1.2).trans (by decide)⟩

theorem index_or_npos_lt {α : Type} (w : Nat) (pred : α → Bool) (l : List α)
    (h : (if find_if pred l = l.length then toSizeT w (-1)
      else toSizeT w (Int.ofNat (find_if pred l))) ≠ toSizeT w (-1)) :
    (if find_if pred l = l.length then toSizeT w (-1)
      else toSizeT w (Int.ofNat (find_if pred l))) < l.length := by
  by_cases hk : find_if pred l = l.length
  · rw [if_pos hk] at h
    exact absurd rfl h
  · rw [if_neg hk]
    exact Nat.lt_of_le_of_lt (toSizeT_ofNat_le w _) (find_if_lt_of_ne pred l hk)

/-- C10: for every registry and every name `s`, if the find is not `NPos` then it is smaller than
the count, so the by-name accessor calls the index-based accessor with an index in range (the
call returns the pointer to that slot) and never reaches the out-of-range outcome; this holds
for the node, the IK-solver and the blend-shape registries alike. -/
theorem by_name_index_in_range {NodeType IKSolverType BlendShapeType : Type}
    [MMDNodeType NodeType] [MMDIKSolverType IKSolverType] [MMDBlendShapeType BlendShapeType]
    (w : Nat) (s : String) (nm : MMDNodeManagerT NodeType) (im : MMDIKManagerT IKSolverType)
    (bm : MMDBlendShapeManagerT BlendShapeType) :
    ((nm.FindNodeIndex w s ≠ MMDNodeManager.NPos w →
        nm.FindNodeIndex w s < nm.GetNodeCount ∧
        nm.GetMMDNode (nm.FindNodeIndex w s) = Ptr.elem (nm.FindNodeIndex w s)) ∧
      nm.GetMMDNodeByName w s ≠ Ptr.undefined) ∧
    ((im.FindIKSolverIndex w s ≠ MMDIKManager.NPos w →
        im.FindIKSolverIndex w s < im.GetIKSolverCount ∧
        im.GetMMDIKSolver (im.FindIKSolverIndex w s) = Ptr.elem (im.FindIKSolverIndex w s)) ∧
      im.GetMMDIKSolverByName w s ≠ Ptr.undefined) ∧
    ((bm.FindBlendKeyShapeIndex w s ≠ MMDBlendShapeManager.NPos w →
        bm.FindBlendKeyShapeIndex w s < bm.GetBlendKeyShapeCount ∧
        bm.GetMMDBlendKeyShape (bm.FindBlendKeyShapeIndex w s)
          = Ptr.elem (bm.FindBlendKeyShapeIndex w s)) ∧
      bm.GetMMDBlendKeyShapeByName w s ≠ Ptr.undefined) := by
  have hn : nm.FindNodeIndex w s ≠ MMDNodeManager.NPos w →
      nm.FindNodeIndex w s < nm.m_nodes.length :=
    fun h => index_or_npos_lt w _ nm.m_nodes h
  have hi : im.FindIKSolverIndex w s ≠ MMDIKManager.NPos w →
      im.FindIKSolverIndex w s < im.m_ikSolvers.length :=
    fun h => index_or_npos_lt w _ im.m_ikSolvers h
  have hb : bm.FindBlendKeyShapeIndex w s ≠ MMDBlendShapeManager.NPos w →
      bm.FindBlendKeyShapeIndex w s < bm.m_keyShapes.length :=
    fun h => index_or_npos_lt w _ bm.m_keyShapes h
  refine ⟨⟨fun h => ⟨hn h, ?_⟩, ?_⟩, ⟨fun h => ⟨hi h, ?_⟩, ?_⟩, ⟨fun h => ⟨hb h, ?_⟩, ?_⟩⟩
  · simp [MMDNodeManagerT.GetMMDNode, hn h]
  · by_cases h : nm.FindNodeIndex w s = MMDNodeManager.NPos w
    · simp [MMDNodeManagerT.GetMMDNodeByName, h]
    · simp [MMDNodeManagerT.GetMMDNodeByName, MMDNodeManagerT.GetMMDNode, h, hn h]
  · simp [MMDIKManagerT.GetMMDIKSolver, hi h]
  · by_cases h : im.FindIKSolverIndex w s = MMDIKManager.NPos w
    · simp [MMDIKManagerT.GetMMDIKSolverByName, h]
    · simp [MMDIKManagerT.GetMMDIKSolverByName, MMDIKManagerT.GetMMDIKSolver, h, hi h]
  · simp [MMDBlendShapeManagerT.GetMMDBlendKeyShape, hb h]
  · by_cases h : bm.FindBlendKeyShapeIndex w s = MMDBlendShapeManager.NPos w
    · simp [MMDBlendShapeManagerT.GetMMDBlendKeyShapeByName, h]
    · simp [MMDBlendShapeManagerT.GetMMDBlendKeyShapeByName,
        MMDBlendShapeManagerT.GetMMDBlendKeyShape, h, hb h]

/-- Witness of C10 on a node registry of three nodes with 64-bit `size_t`: the find of `arm` is
below the node count 3. -/
theorem by_name_index_in_range_witness :
    MMDNodeManagerT.FindNodeIndex 64
        ({ m_nodes := [{ m_name := "head" }, { m_name := "arm" }, { m_name := "arm" }] } :
          MMDNodeManagerT NamedItem) "arm" < 3 :=
  ((by_name_index_in_range 64 "arm"
      ({ m_nodes := [{ m_name := "head" }, { m_name := "arm" }, { m_name := "arm" }] } :
        MMDNodeManagerT NamedItem)
      ({ m_ikSolvers := [] } : MMDIKManagerT NamedItem)
      ({ m_keyShapes := [] } : MMDBlendShapeManagerT (MMDBlendShape Int))).1.1
    (by decide)).1

/-! ### `PMDModel` accessors -/

/-- C7: UVs are never deformed. For every `PMDModel` state `GetUpdateUVs()` returns the same
pointer as `GetUVs()`, into the rest UV buffer `m_uvs`, and what is read through either pointer
at any offset `i` is element `i` of `m_uvs`. -/
theorem GetUpdateUVs_eq_GetUVs {F Material Node IKSolver : Type}
    (self : PMDModel F Material Node IKSolver) :
    self.GetUpdateUVs = self.GetUVs ∧
      (∀ i, self.readVec2 self.GetUpdateUVs i = self.readVec2 self.GetUVs i) ∧
      (∀ i, self.readVec2 self.GetUpdateUVs i = self.m_uvs[i]?) ∧
      (∀ i, self.readVec2 self.GetUVs i = self.m_uvs[i]?) := by
  have key : ∀ i, self.readVec2 self.GetUVs i = self.m_uvs[i]? := by
    intro i
    by_cases h : 0 < self.m_uvs.length
    · simp [PMDModel.GetUVs, PMDModel.readVec2, h]
    · have hnil : self.m_uvs = [] := by
        cases hl : self.m_uvs with
        | nil => rfl
        | cons a t => simp [hl] at h
      simp [PMDModel.GetUVs, PMDModel.readVec2, hnil]
  exact ⟨rfl, fun _ => rfl, key, key⟩

/-! ### The blend-shape phase -/

theorem compositeShapes_all_zero {F : Type} [FloatOps F] (buffer : List (vec3 F))
    (shapes : List (MMDBlendShape F))
    (hzero : ∀ shape ∈ shapes, FloatOps.isZero shape.m_weight = true) :
    compositeShapes buffer shapes = buffer := by
  induction shapes generalizing buffer with
  | nil => rfl
  | cons sh rest ih =>
    have h0 : FloatOps.isZero sh.m_weight = true := hzero sh (List.mem_cons_self _ _)
    have hrest : ∀ shape ∈ rest, FloatOps.isZero shape.m_weight = true :=
      fun shape hmem => hzero shape (List.mem_cons_of_mem _ hmem)
    have step : compositeShapes buffer (sh :: rest) = compositeShapes buffer rest := by
      simp [compositeShapes, h0]
    rw [step]
    exact ih buffer hrest

/-- C9: blend-shape zero-weight identity. For every model in which every registered blend shape
has `m_weight` equal to zero, the position buffer composited by the blend-shape phase of
`Update` is the rest-pose position buffer `m_positions`, at every vertex index. -/
theorem UpdateBlendShapes_zero_weight {F Material Node IKSolver : Type} [FloatOps F]
    (self : PMDModel F Material Node IKSolver)
    (hzero : ∀ shape ∈ self.m_blendShapeMan.m_keyShapes,
      FloatOps.isZero shape.m_weight = true) :
    self.UpdateBlendShapes = self.m_positions ∧
      ∀ i : Nat, self.UpdateBlendShapes[i]? = self.m_positions[i]? := by
  have h : self.UpdateBlendShapes = self.m_positions :=
    compositeShapes_all_zero self.m_positions self.m_blendShapeMan.m_keyShapes hzero
  exact ⟨h, fun i => by rw [h]⟩

/-- Witness of C9 on a model with two zero-weight shapes over exact integer arithmetic. -/
theorem UpdateBlendShapes_zero_weight_witness :
    restingModel.UpdateBlendShapes
      = [{ x := 1, y := 2, z := 3 }, { x := 4, y := 5, z := 6 }] :=
  (UpdateBlendShapes_zero_weight restingModel (by decide)).1

/-! ### Order of compositing

The order in which two shapes are composited matters only through the order of the additions
made at a vertex both shapes touch. The two results below hold for every arithmetic on `F`;
whether the additions of `float` may be exchanged is a property of floating-point rounding,
which this development does not describe. -/

theorem accumulateDelta_swap {F : Type} [FloatOps F] (w1 w2 : F) (d1 d2 : vec3 F)
    (buf : List (vec3 F)) (i j : Nat)
    (h : i ≠ j ∨ ∀ p : vec3 F,
      vec3.add (vec3.add p (vec3.scale d1 w1)) (vec3.scale d2 w2)
        = vec3.add (vec3.add p (vec3.scale d2 w2)) (vec3.scale d1 w1)) :
    accumulateDelta w2 (accumulateDelta w1 buf i d1) j d2
      = accumulateDelta w1 (accumulateDelta w2 buf j d2) i d1 := by
  induction buf generalizing i j with
  | nil => simp [accumulateDelta]
  | cons p ps ih =>
    cases i with
    | zero =>
      cases j with
      | zero =>
        rcases h with h | h
        · exact absurd rfl h
        · simp [accumulateDelta, h p]
      | succ j => simp [accumulateDelta]
    | succ i =>
      cases j with
      | zero => simp [accumulateDelta]
      | succ j =>
        have h1 : i ≠ j ∨ ∀ p : vec3 F,
            vec3.add (vec3.add p (vec3.scale d1 w1)) (vec3.scale d2 w2)
              = vec3.add (vec3.add p (vec3.scale d2 w2)) (vec3.scale d1 w1) := by
          rcases h with h | h
          · exact Or.inl (fun e => h (congrArg Nat.succ e))
          · exact Or.inr h
        simp [accumulateDelta, ih i j h1]

theorem applyBlendShape_accumulateDelta {F : Type} [FloatOps F] (w : F) (i : Nat) (d : vec3 F)
    (wA : F) (vs : List (MMDBlendShapeVertex F)) (buf : List (vec3 F))
    (h : ∀ v ∈ vs, i ≠ v.m_index ∨ ∀ p : vec3 F,
      vec3.add (vec3.add p (vec3.scale d w)) (vec3.scale v.m_position wA)
        = vec3.add (vec3.add p (vec3.scale v.m_position wA)) (vec3.scale d w)) :
    vs.foldl (fun b v => accumulateDelta wA b v.m_index v.m_position)
        (accumulateDelta w buf i d)
      = accumulateDelta w
          (vs.foldl (fun b v => accumulateDelta wA b v.m_index v.m_position) buf) i d := by
  induction vs generalizing buf with
  | nil => rfl
  | cons v vs ih =>
    simp only [List.foldl_cons]
    rw [accumulateDelta_swap w wA d v.m_position buf i v.m_index
      (h v (List.mem_cons_self _ _))]
    exact ih _ (fun u hu => h u (List.mem_cons_of_mem _ hu))

theorem applyBlendShape_swap {F : Type} [FloatOps F] (A B : MMDBlendShape F)
    (buf : List (vec3 F))
    (h : ∀ a ∈ A.m_vertices, ∀ b ∈ B.m_vertices, a.m_index ≠ b.m_index ∨ ∀ p : vec3 F,
      vec3.add (vec3.add p (vec3.scale a.m_position A.m_weight))
          (vec3.scale b.m_position B.m_weight)
        = vec3.add (vec3.add p (vec3.scale b.m_position B.m_weight))
          (vec3.scale a.m_position A.m_weight)) :
    applyBlendShape (applyBlendShape buf A) B = applyBlendShape (applyBlendShape buf B) A := by
  unfold applyBlendShape
  generalize A.m_vertices = vsA at h
  induction vsA generalizing buf with
  | nil => rfl
  | cons a vsA ih =>
    simp only [List.foldl_cons]
    rw [ih _ (fun u hu => h u (List.mem_cons_of_mem _ hu))]
    congr 1
    exact applyBlendShape_accumulateDelta A.m_weight a.m_index a.m_position B.m_weight
      B.m_vertices buf (h a (List.mem_cons_self _ _))

/-- Two shapes that touch no common vertex index composite to the same buffer in either order,
whatever the arithmetic. -/
theorem compositeShapes_swap_of_disjoint {F : Type} [FloatOps F] (A B : MMDBlendShape F)
    (buf : List (vec3 F))
    (h : ∀ a ∈ A.m_vertices, ∀ b ∈ B.m_vertices, a.m_index ≠ b.m_index) :
    compositeShapes buf [A, B] = compositeShapes buf [B, A] := by
  have hswap := applyBlendShape_swap A B buf (fun a ha b hb => Or.inl (h a ha b hb))
  simp only [compositeShapes, List.foldl_cons, List.foldl_nil]
  cases hA : FloatOps.isZero A.m_weight <;> cases hB : FloatOps.isZero B.m_weight <;>
    simp [hswap]

/-- Two shapes composite to the same buffer in either order when the additions of the
arithmetic may be exchanged, as in exact arithmetic. -/
theorem compositeShapes_swap_of_exchange {F : Type} [FloatOps F]
    (hadd : ∀ p a b : F, FloatOps.add (FloatOps.add p a) b = FloatOps.add (FloatOps.add p b) a)
    (A B : MMDBlendShape F) (buf : List (vec3 F)) :
    compositeShapes buf [A, B] = compositeShapes buf [B, A] := by
  have hswap := applyBlendShape_swap A B buf
    (fun a _ b _ => Or.inr (fun p => by simp [vec3.add, hadd]))
  simp only [compositeShapes, List.foldl_cons, List.foldl_nil]
  cases hA : FloatOps.isZero A.m_weight <;> cases hB : FloatOps.isZero B.m_weight <;>
    simp [hswap]

/-! ### The index buffer -/

/-- C11, as amended: for every `PMDModel` state `GetIndexElementSize()` reports 2 bytes, the
16-bit width `sizeof(uint16_t)`, whatever the vertex count (any two states report the same); it
is the width of the elements of `m_indices`, the buffer `GetIndices()` points into. -/
theorem GetIndexElementSize_is_two {F Material Node IKSolver : Type}
    (self : PMDModel F Material Node IKSolver) :
    self.GetIndexElementSize = 2 ∧
      (self.GetIndexElementSize = 2 ∨ self.GetIndexElementSize = 4) ∧
      self.GetIndexElementSize = PMDModel.sizeof_m_indices_element ∧
      (self.GetIndices = BufPtr.elem PMDBuffer.m_indices 0 ∨
        self.GetIndices = BufPtr.undefined) ∧
      (0 < self.GetIndexCount → self.GetIndices = BufPtr.elem PMDBuffer.m_indices 0) ∧
      ∀ other : PMDModel F Material Node IKSolver,
        other.GetIndexElementSize = self.GetIndexElementSize := by
  refine ⟨rfl, Or.inl rfl, rfl, ?_, ?_, fun _ => rfl⟩
  · by_cases h : 0 < self.m_indices.length
    · exact Or.inl (by simp [PMDModel.GetIndices, h])
    · exact Or.inr (by simp [PMDModel.GetIndices, h])
  · intro h
    have h1 : 0 < self.m_indices.length := h
    simp [PMDModel.GetIndices, h1]

/-- C11, counterexample: a model with 65537 vertices, more than 16-bit indices can address,
reports the element size 2, not 4. -/
theorem GetIndexElementSize_dense_counterexample :
    65536 < denseModel.GetVertexCount ∧ denseModel.GetIndexElementSize = 2 ∧
      denseModel.GetIndexElementSize ≠ 4 := by
  have hcount : denseModel.GetVertexCount = 65537 := List.length_replicate _ _
  refine ⟨?_, rfl, by decide⟩
  rw [hcount]
  exact Nat.lt_succ_self 65536

/-! ### Growth of the node registry and name lookup -/

theorem find_if_append_of_lt {α : Type} (pred : α → Bool) (l r : List α)
    (h : find_if pred l < l.length) : find_if pred (l ++ r) = find_if pred l := by
  induction l with
  | nil => simp [find_if] at h
  | cons x xs ih =>
    cases hx : pred x with
    | true => simp [find_if, hx]
    | false =>
      have h1 : find_if pred xs < xs.length := by
        simpa [find_if, hx] using h
      simp [find_if, hx, ih h1]

theorem find_if_append_of_absent {α : Type} (pred : α → Bool) (l r : List α)
    (h : ∀ x ∈ l, pred x = false) : find_if pred (l ++ r) = l.length + find_if pred r := by
  induction l with
  | nil => simp
  | cons x xs ih =>
    have hx : pred x = false := h x (List.mem_cons_self _ _)
    have hxs : ∀ y ∈ xs, pred y = false := fun y hy => h y (List.mem_cons_of_mem _ hy)
    simp [find_if, hx, ih hxs]
    omega

theorem set_length_append_singleton {α : Type} (l : List α) (a v : α) :
    (l ++ [a]).set l.length v = l ++ [v] := by
  induction l with
  | nil => rfl
  | cons x xs ih => simp [ih]

theorem AddNode_writeNode_m_nodes {NodeType : Type} [MMDNodeType NodeType] (w : Nat)
    (mgr : MMDNodeManagerT NodeType) (node : NodeType) (hsize : mgr.m_nodes.length < 2 ^ w) :
    ((mgr.AddNode w).1.writeNode (mgr.AddNode w).2 node).m_nodes = mgr.m_nodes ++ [node] := by
  rw [AddNode_result w mgr hsize]
  simp only [MMDNodeManagerT.writeNode, AddNode_m_nodes]
  exact set_length_append_singleton _ _ _

/-- C12: add-then-find round trip. On a node registry with `n` nodes (`n + 1` representable in
`size_t`) and for a name `s` that no existing node carries, after `AddNode()` and writes through
the returned pointer that leave the new node with `m_name = s`, `FindNodeIndex(s) = n` and the
by-name accessor `GetMMDNode(s)` returns the pointer `AddNode` returned, which designates the
new node. -/
theorem AddNode_then_find {NodeType : Type} [MMDNodeType NodeType] (w : Nat)
    (mgr : MMDNodeManagerT NodeType) (s : String) (node : NodeType)
    (hsize : mgr.GetNodeCount + 1 < 2 ^ w)
    (hfresh : ∀ x ∈ mgr.m_nodes, MMDNodeType.m_name x ≠ s)
    (hname : MMDNodeType.m_name node = s) :
    ((mgr.AddNode w).1.writeNode (mgr.AddNode w).2 node).FindNodeIndex w s
        = mgr.GetNodeCount ∧
      ((mgr.AddNode w).1.writeNode (mgr.AddNode w).2 node).GetMMDNodeByName w s
        = (mgr.AddNode w).2 ∧
      ((mgr.AddNode w).1.writeNode (mgr.AddNode w).2 node).deref
          (((mgr.AddNode w).1.writeNode (mgr.AddNode w).2 node).GetMMDNodeByName w s)
        = some node := by
  have hn : mgr.m_nodes.length + 1 < 2 ^ w := hsize
  have hnodes := AddNode_writeNode_m_nodes w mgr node (by omega)
  have hres := AddNode_result w mgr (by omega)
  generalize (mgr.AddNode w).1.writeNode (mgr.AddNode w).2 node = after at hnodes ⊢
  have hlen : after.m_nodes.length = mgr.m_nodes.length + 1 := by
    rw [hnodes]
    simp
  have habs : ∀ x ∈ mgr.m_nodes, (MMDNodeType.m_name x == s) = false := by
    intro x hx
    simpa using hfresh x hx
  have hk : find_if (fun x => MMDNodeType.m_name x == s) after.m_nodes
      = mgr.m_nodes.length := by
    rw [hnodes, find_if_append_of_absent _ _ _ habs]
    simp [find_if, hname]
  have hne : find_if (fun x => MMDNodeType.m_name x == s) after.m_nodes
      ≠ after.m_nodes.length := by
    rw [hk, hlen]
    omega
  obtain ⟨hidx, hnpos⟩ := FindNodeIndex_of_present w after s (by omega) hne
  have hfind : after.FindNodeIndex w s = mgr.m_nodes.length := hidx.trans hk
  have hby : after.GetMMDNodeByName w s = Ptr.elem mgr.m_nodes.length := by
    simp only [MMDNodeManagerT.GetMMDNodeByName, MMDNodeManagerT.GetMMDNode]
    rw [if_neg hnpos, hfind, if_pos (by omega)]
  refine ⟨hfind, hby.trans hres.symm, ?_⟩
  rw [hby]
  simp [MMDNodeManagerT.deref, hnodes]

/-- Witness of C12: the name `arm` added to a two-node registry, with 64-bit `size_t`, is found
at index 2. -/
theorem AddNode_then_find_witness :
    MMDNodeManagerT.FindNodeIndex 64
        (MMDNodeManagerT.writeNode
          (MMDNodeManagerT.AddNode 64
            ({ m_nodes := [{ m_name := "head" }, { m_name := "neck" }] } :
              MMDNodeManagerT NamedItem)).1
          (MMDNodeManagerT.AddNode 64
            ({ m_nodes := [{ m_name := "head" }, { m_name := "neck" }] } :
              MMDNodeManagerT NamedItem)).2
          { m_name := "arm" }) "arm" = 2 :=
  (AddNode_then_find 64
    ({ m_nodes := [{ m_name := "head" }, { m_name := "neck" }] } : MMDNodeManagerT NamedItem)
    "arm" { m_name := "arm" } (by decide) (by decide) rfl).1

theorem FindNodeIndex_append_of_found {NodeType : Type} [MMDNodeType NodeType] (w : Nat)
    (mgr after : MMDNodeManagerT NodeType) (s : String) (r : List NodeType)
    (hafter : after.m_nodes = mgr.m_nodes ++ r)
    (hfound : mgr.FindNodeIndex w s ≠ MMDNodeManager.NPos w) :
    after.FindNodeIndex w s = mgr.FindNodeIndex w s ∧
      mgr.FindNodeIndex w s < mgr.m_nodes.length := by
  have hk : find_if (fun x => MMDNodeType.m_name x == s) mgr.m_nodes ≠ mgr.m_nodes.length := by
    intro hEq
    exact hfound (FindNodeIndex_of_absent w mgr s hEq)
  have hlt := find_if_lt_of_ne _ _ hk
  have hk2 : find_if (fun x => MMDNodeType.m_name x == s) after.m_nodes
      = find_if (fun x => MMDNodeType.m_name x == s) mgr.m_nodes := by
    rw [hafter]
    exact find_if_append_of_lt _ _ _ hlt
  have hne2 : find_if (fun x => MMDNodeType.m_name x == s) after.m_nodes
      ≠ after.m_nodes.length := by
    rw [hk2, hafter, List.length_append]
    omega
  have e1 : mgr.FindNodeIndex w s
      = toSizeT w (Int.ofNat (find_if (fun x => MMDNodeType.m_name x == s) mgr.m_nodes)) := by
    simp only [MMDNodeManagerT.FindNodeIndex, hk, if_false]
  have e2 : after.FindNodeIndex w s
      = toSizeT w (Int.ofNat (find_if (fun x => MMDNodeType.m_name x == s) after.m_nodes)) := by
    simp only [MMDNodeManagerT.FindNodeIndex, hne2, if_false]
  refine ⟨by rw [e2, hk2, e1], ?_⟩
  rw [e1]
  exact Nat.lt_of_le_of_lt (toSizeT_ofNat_le w _) hlt

/-- C13: lookups are stable under growth. For a node registry (its count representable in
`size_t`) and a name `s` with `FindNodeIndex(s)` different from `NPos`, after `AddNode()`, and
after any writes through the returned pointer (whatever the new node becomes, a node named `s`
included), `FindNodeIndex(s)` is what it was and the by-name accessor returns the pointer it
returned before, which is not the pointer to the appended node. -/
theorem FindNodeIndex_stable_under_growth {NodeType : Type} [MMDNodeType NodeType] (w : Nat)
    (mgr : MMDNodeManagerT NodeType) (s : String) (node : NodeType)
    (hsize : mgr.GetNodeCount < 2 ^ w)
    (hfound : mgr.FindNodeIndex w s ≠ MMDNodeManager.NPos w) :
    (mgr.AddNode w).1.FindNodeIndex w s = mgr.FindNodeIndex w s ∧
      ((mgr.AddNode w).1.writeNode (mgr.AddNode w).2 node).FindNodeIndex w s
        = mgr.FindNodeIndex w s ∧
      ((mgr.AddNode w).1.writeNode (mgr.AddNode w).2 node).GetMMDNodeByName w s
        = mgr.GetMMDNodeByName w s ∧
      ((mgr.AddNode w).1.writeNode (mgr.AddNode w).2 node).GetMMDNodeByName w s
        ≠ (mgr.AddNode w).2 := by
  have hn : mgr.m_nodes.length < 2 ^ w := hsize
  have hnodes := AddNode_writeNode_m_nodes w mgr node hn
  have hres := AddNode_result w mgr hn
  have h0 := (FindNodeIndex_append_of_found w mgr (mgr.AddNode w).1 s _
    (AddNode_m_nodes w mgr) hfound).1
  generalize (mgr.AddNode w).1.writeNode (mgr.AddNode w).2 node = after at hnodes ⊢
  obtain ⟨h1, hlt⟩ := FindNodeIndex_append_of_found w mgr after s _ hnodes hfound
  have hlen : after.m_nodes.length = mgr.m_nodes.length + 1 := by
    rw [hnodes]
    simp
  have hbyOld : mgr.GetMMDNodeByName w s = Ptr.elem (mgr.FindNodeIndex w s) := by
    simp only [MMDNodeManagerT.GetMMDNodeByName, MMDNodeManagerT.GetMMDNode]
    rw [if_neg hfound, if_pos hlt]
  have hbyNew : after.GetMMDNodeByName w s = Ptr.elem (mgr.FindNodeIndex w s) := by
    simp only [MMDNodeManagerT.GetMMDNodeByName, MMDNodeManagerT.GetMMDNode]
    rw [h1, if_neg hfound, if_pos (by omega)]
  refine ⟨h0, h1, hbyNew.trans hbyOld.symm, ?_⟩
  rw [hbyNew, hres]
  intro hEq
  injection hEq with hidx
  omega

/-- Witness of C13: in a two-node registry with 64-bit `size_t`, appending a second node named
`head` leaves the lookup of `head` at index 0. -/
theorem FindNodeIndex_stable_under_growth_witness :
    MMDNodeManagerT.FindNodeIndex 64
        (MMDNodeManagerT.writeNode
          (MMDNodeManagerT.AddNode 64
            ({ m_nodes := [{ m_name := "head" }, { m_name := "neck" }] } :
              MMDNodeManagerT NamedItem)).1
          (MMDNodeManagerT.AddNode 64
            ({ m_nodes := [{ m_name := "head" }, { m_name := "neck" }] } :
              MMDNodeManagerT NamedItem)).2
          { m_name := "head" }) "head" = 0 :=
  ((FindNodeIndex_stable_under_growth 64
    ({ m_nodes := [{ m_name := "head" }, { m_name := "neck" }] } : MMDNodeManagerT NamedItem)
    "head" { m_name := "head" } (by decide) (by decide)).2.1).trans (by decide)

/-! ### The sentinels -/

theorem index_or_npos_lt_npos {α : Type} (w : Nat) (pred : α → Bool) (l : List α)
    (hsize : l.length < 2 ^ w) (hk : find_if pred l ≠ l.length) :
    (if find_if pred l = l.length then toSizeT w (-1)
      else toSizeT w (Int.ofNat (find_if pred l))) < toSizeT w (-1) := by
  have hlt := find_if_lt_of_ne pred l hk
  rw [if_neg hk, toSizeT_of_lt w _ (by omega), toSizeT_neg_one]
  omega

theorem find_if_ne_length_of_mem {α : Type} (pred : α → Bool) (l : List α)
    (h : ∃ x ∈ l, pred x = true) : find_if pred l ≠ l.length := by
  intro hEq
  obtain ⟨x, hx, hpx⟩ := h
  have := (find_if_eq_length_iff pred l).mp hEq x hx
  rw [this] at hpx
  exact Bool.noConfusion hpx

/-- C15: the not-found sentinels of the three managers are the same value, `-1` converted to
`size_t`, which is `2 ^ w - 1` for `w`-bit `size_t`, the largest `size_t` value; in registries
whose counts are `size_t` values it is above every element index, and every index a find returns
for a present name is strictly less than it. -/
theorem NPos_above_every_index {NodeType IKSolverType BlendShapeType : Type}
    [MMDNodeType NodeType] [MMDIKSolverType IKSolverType] [MMDBlendShapeType BlendShapeType]
    (w : Nat) (s : String) (nm : MMDNodeManagerT NodeType) (im : MMDIKManagerT IKSolverType)
    (bm : MMDBlendShapeManagerT BlendShapeType)
    (hn : nm.GetNodeCount < 2 ^ w) (hi : im.GetIKSolverCount < 2 ^ w)
    (hb : bm.GetBlendKeyShapeCount < 2 ^ w) :
    (MMDIKManager.NPos w = MMDNodeManager.NPos w ∧
      MMDBlendShapeManager.NPos w = MMDNodeManager.NPos w) ∧
    (MMDNodeManager.NPos w = toSizeT w (-1) ∧ MMDNodeManager.NPos w = 2 ^ w - 1 ∧
      ∀ x, x < 2 ^ w → x ≤ MMDNodeManager.NPos w) ∧
    ((∀ i, i < nm.GetNodeCount → i < MMDNodeManager.NPos w) ∧
      (∀ i, i < im.GetIKSolverCount → i < MMDIKManager.NPos w) ∧
      (∀ i, i < bm.GetBlendKeyShapeCount → i < MMDBlendShapeManager.NPos w)) ∧
    (((∃ node ∈ nm.m_nodes, MMDNodeType.m_name node = s) →
        nm.FindNodeIndex w s < MMDNodeManager.NPos w) ∧
      ((∃ ik ∈ im.m_ikSolvers, MMDIKSolverType.GetName ik = s) →
        im.FindIKSolverIndex w s < MMDIKManager.NPos w) ∧
      ((∃ shape ∈ bm.m_keyShapes, MMDBlendShapeType.m_name shape = s) →
        bm.FindBlendKeyShapeIndex w s < MMDBlendShapeManager.NPos w)) := by
  have hN : MMDNodeManager.NPos w = 2 ^ w - 1 := toSizeT_neg_one w
  have hI : MMDIKManager.NPos w = 2 ^ w - 1 := toSizeT_neg_one w
  have hB : MMDBlendShapeManager.NPos w = 2 ^ w - 1 := toSizeT_neg_one w
  have hn1 : nm.m_nodes.length < 2 ^ w := hn
  have hi1 : im.m_ikSolvers.length < 2 ^ w := hi
  have hb1 : bm.m_keyShapes.length < 2 ^ w := hb
  refine ⟨⟨rfl, rfl⟩, ⟨rfl, hN, ?_⟩, ⟨?_, ?_, ?_⟩, ⟨?_, ?_, ?_⟩⟩
  · intro x hx
    rw [hN]
    omega
  · intro i hlt
    have h1 : i < nm.m_nodes.length := hlt
    rw [hN]
    omega
  · intro i hlt
    have h1 : i < im.m_ikSolvers.length := hlt
    rw [hI]
    omega
  · intro i hlt
    have h1 : i < bm.m_keyShapes.length := hlt
    rw [hB]
    omega
  · rintro ⟨node, hmem, hname⟩
    exact index_or_npos_lt_npos w _ nm.m_nodes hn1
      (find_if_ne_length_of_mem _ _ ⟨node, hmem, by simp [hname]⟩)
  · rintro ⟨ik, hmem, hname⟩
    exact index_or_npos_lt_npos w _ im.m_ikSolvers hi1
      (find_if_ne_length_of_mem _ _ ⟨ik, hmem, by simp [hname]⟩)
  · rintro ⟨shape, hmem, hname⟩
    exact index_or_npos_lt_npos w _ bm.m_keyShapes hb1
      (find_if_ne_length_of_mem _ _ ⟨shape, hmem, by simp [hname]⟩)

/-- Witness of C15 with 64-bit `size_t`: the sentinel is `2 ^ 64 - 1` and the find of a present
name in a three-node registry is below it. -/
theorem NPos_above_every_index_witness :
    MMDNodeManager.NPos 64 = 2 ^ 64 - 1 ∧
      MMDNodeManagerT.FindNodeIndex 64
        ({ m_nodes := [{ m_name := "head" }, { m_name := "arm" }, { m_name := "arm" }] } :
          MMDNodeManagerT NamedItem) "arm" < MMDNodeManager.NPos 64 :=
  ⟨(NPos_above_every_index 64 "arm"
      ({ m_nodes := [{ m_name := "head" }, { m_name := "arm" }, { m_name := "arm" }] } :
        MMDNodeManagerT NamedItem)
      ({ m_ikSolvers := [{ m_name := "leg" }] } : MMDIKManagerT NamedItem)
      ({ m_keyShapes := [{ m_name := "smile", m_weight := 0, m_vertices := [] }] } :
        MMDBlendShapeManagerT (MMDBlendShape Int))
      (by decide) (by decide) (by decide)).2.1.2.1,
    (NPos_above_every_index 64 "arm"
      ({ m_nodes := [{ m_name := "head" }, { m_name := "arm" }, { m_name := "arm" }] } :
        MMDNodeManagerT NamedItem)
      ({ m_ikSolvers := [{ m_name := "leg" }] } : MMDIKManagerT NamedItem)
      ({ m_keyShapes := [{ m_name := "smile", m_weight := 0, m_vertices := [] }] } :
        MMDBlendShapeManagerT (MMDBlendShape Int))
      (by decide) (by decide) (by decide)).2.2.2.1 ⟨{ m_name := "arm" }, by decide, rfl⟩⟩

end saba
